import Mathlib

/-!
Verification of the BlackRoad Studio design-token manager
(`src/design_token_manager.py`) against its natural-language specification.

The Python module is shallowly embedded below.  Pure helpers (`_slug`,
`_camel`, `_is_valid_color`, `Token.validate`, joining and splitting of
comma-separated list columns) become Lean functions over `String` /
`List Char`; the SQLite-backed store becomes an explicit `DBState` record
(a `tokens` table of `Row`s and a `token_snapshots` table of `Snap`s)
threaded through the CRUD operations, which return the resulting state
alongside an `Except`-style result.  Regular-expression tests from the
source are unfolded into explicit character-level predicates, including
the CPython details that matter: `re.match` anchoring, the `$` anchor also
matching just before one trailing newline, `str.strip` whitespace and the
`str.title` case algorithm.  Characters are modelled at ASCII precision
(all string constants in the program and the spec are ASCII).
-/

namespace DTM

/-! ## Character-level helpers -/

/-- ASCII lower-case letter or digit: the leading-character class of the
name pattern. -/
def isLowerDigit (c : Char) : Bool :=
  ('a' ≤ c && c ≤ 'z') || ('0' ≤ c && c ≤ '9')

/-- Character class of the tail of the name pattern. -/
def isNameRest (c : Char) : Bool :=
  isLowerDigit c || c = '-' || c = '.' || c = '/'

/-- Hexadecimal digit, both cases, as in the color patterns. -/
def isHexDigit (c : Char) : Bool :=
  ('0' ≤ c && c ≤ '9') || ('a' ≤ c && c ≤ 'f') || ('A' ≤ c && c ≤ 'F')

/-- The whitespace characters removed by Python `str.strip()`
(ASCII subset: space, tab, newline, carriage return, vertical tab,
form feed). -/
def isPyWhite (c : Char) : Bool :=
  c = ' ' || c = '\t' || c = '\n' || c = '\r' || c.toNat = 11 || c.toNat = 12

/-- Python `str.strip()` on the ASCII whitespace set. -/
def pyStrip (s : String) : String :=
  ⟨((s.data.dropWhile isPyWhite).reverse.dropWhile isPyWhite).reverse⟩

/-- Python `str.lower()` at ASCII precision. -/
def asciiLower (s : String) : String :=
  ⟨s.data.map Char.toLower⟩

/-- Case-insensitive character equality (ASCII). -/
def ciCharEq (a b : Char) : Bool :=
  a.toLower = b.toLower

/-- `l` begins with `p` up to ASCII case, as tested by an anchored
`re.match` with `re.IGNORECASE` whose pattern is the literal `p`. -/
def ciHasPre (p : List Char) (l : List Char) : Bool :=
  match p, l with
  | [], _ => true
  | _ :: _, [] => false
  | a :: p', b :: l' => ciCharEq a b && ciHasPre p' l'

/-- `l` equals `p` up to ASCII case (pattern `^p$` with `re.IGNORECASE`
on a stripped string, which cannot end in a newline). -/
def ciEqList (p : List Char) (l : List Char) : Bool :=
  l.map Char.toLower = p.map Char.toLower

/-! ## `_slug` and `_camel` -/

/-- `_slug`: lower-case and replace `/`, `.`, space with `-`. -/
def slug (name : String) : String :=
  ⟨(asciiLower name).data.map fun c =>
    if c = '/' || c = '.' || c = ' ' then '-' else c⟩

/-- Separator class of the split pattern (hyphen, slash, dot, space). -/
def isSep (c : Char) : Bool :=
  c = '-' || c = '/' || c = '.' || c = ' '

/-- The source's `re.split` on one-or-more separator characters
(hyphen, slash, dot, space), over a character list.  The state is
`some cur` while a segment (reversed in `cur`) is being built and `none`
immediately after a separator run, so that a run of separators produces a
single boundary while leading and trailing runs yield empty segments,
exactly as CPython's `re.split` does. -/
def splitSepsAux : List Char → Option (List Char) → List (List Char)
  | [], some cur => [cur.reverse]
  | [], none => [[]]
  | c :: rest, some cur =>
    if isSep c then cur.reverse :: splitSepsAux rest none
    else splitSepsAux rest (some (c :: cur))
  | c :: rest, none =>
    if isSep c then splitSepsAux rest none
    else splitSepsAux rest (some [c])

/-- The source's `re.split` on runs of hyphen, slash, dot or space. -/
def pySplitSeps (name : String) : List String :=
  (splitSepsAux name.data (some [])).map String.mk

/-- One step of Python `str.title()`: a cased character is upper-cased
when the previous character was uncased and lower-cased otherwise;
uncased characters pass through. -/
def isCasedChar (c : Char) : Bool :=
  (97 ≤ c.toNat && c.toNat ≤ 122) || (65 ≤ c.toNat && c.toNat ≤ 90)

/-- Python `str.title()` over a character list; `prev` records whether
the previous character was cased. -/
def titleChars : List Char → Bool → List Char
  | [], _ => []
  | c :: rest, prev =>
    (if isCasedChar c then (if prev then c.toLower else c.toUpper) else c)
      :: titleChars rest (isCasedChar c)

/-- Python `str.title()`. -/
def pyTitle (s : String) : String :=
  ⟨titleChars s.data false⟩

/-- `_camel`: split on separator runs, lower the first segment, apply
`str.title` to each later segment, concatenate. -/
def camel (name : String) : String :=
  match pySplitSeps name with
  | [] => ""
  | p :: rest => asciiLower p ++ String.join (rest.map pyTitle)

/-! ## `_is_valid_color` -/

/-- Pattern `^#([0-9a-fA-F]{3}){1,2}$`: `#` followed by exactly three or
six hex digits (the list view: head is `#`, tail is all-hex of length 3
or 6; an empty list has no `#` head). -/
def hexMatch36 (l : List Char) : Bool :=
  l.headD ' ' = '#' && l.tail.all isHexDigit
    && (l.tail.length = 3 || l.tail.length = 6)

/-- Pattern `^#[0-9a-fA-F]{8}$`. -/
def hexMatch8 (l : List Char) : Bool :=
  l.headD ' ' = '#' && l.tail.all isHexDigit && l.tail.length = 8

/-- The non-hex patterns of `_is_valid_color`: functional prefixes,
`var(--` references and the three literals (all with `re.IGNORECASE`;
the prefix patterns are unanchored at the right). -/
def colorRestMatch (l : List Char) : Bool :=
  ciHasPre "rgb(".data l || ciHasPre "rgba(".data l
    || ciHasPre "hsl(".data l || ciHasPre "hsla(".data l
    || ciHasPre "oklch(".data l || ciHasPre "color(".data l
    || ciHasPre "var(--".data l
    || ciEqList "transparent".data l || ciEqList "currentColor".data l
    || ciEqList "inherit".data l

/-- `_is_valid_color`: any of the source's patterns matches the stripped
value. -/
def isValidColor (value : String) : Bool :=
  hexMatch36 (pyStrip value).data || hexMatch8 (pyStrip value).data
    || colorRestMatch (pyStrip value).data

/-! ## Name pattern and spacing pattern -/

/-- Core of `^[a-z0-9][a-z0-9\-./]*$` on a full string. -/
def nameCoreMatch : List Char → Bool
  | [] => false
  | c :: rest => isLowerDigit c && rest.all isNameRest

/-- `re.match(r"^[a-z0-9][a-z0-9\-./]*$", ·)`: the `$` anchor also
matches just before a single trailing newline. -/
def nameRegexMatch (l : List Char) : Bool :=
  nameCoreMatch l || (l.getLast? = some '\n' && nameCoreMatch l.dropLast)

/-- The unit alternatives of the spacing pattern. -/
def spacingUnits : List String := ["px", "rem", "em", "%", "vw", "vh"]

/-- `re.match(r"^[\d.]+(?:px|rem|em|%|vw|vh)$", ·)` on a stripped string:
a non-empty prefix of digits and dots followed by one of the units. -/
def spacingUnitMatch (l : List Char) : Bool :=
  spacingUnits.any fun u =>
    u.data.isSuffixOf l &&
      (let pre := l.take (l.length - u.data.length)
       !pre.isEmpty && pre.all fun c => c.isDigit || c = '.')

/-! ## Token data model and validation -/

/-- The `Token` dataclass. -/
structure Token where
  id : String
  name : String
  category : String
  value : String
  description : String := ""
  aliases : List String := []
  deprecated : Bool := false
  deprecated_reason : String := ""
  tags : List String := []
  created_at : String := ""
  updated_at : String := ""
  version : Int := 1
deriving DecidableEq

/-- The `CATEGORIES` constant. -/
def CATEGORIES : List String :=
  ["color", "spacing", "typography", "shadow", "radius",
   "opacity", "z-index", "breakpoint", "motion", "border"]

/-- Concatenation of string data lists as a string (the error messages of
the source are Python f-strings, i.e. concatenations). -/
def strCat (parts : List String) : String :=
  ⟨(parts.map String.data).flatten⟩

def nameErrMsg (n : String) : String :=
  strCat ["name \x27", n, "\x27 must be lowercase, digits, hyphens, dots or slashes"]

def catErrMsg (c : String) : String :=
  strCat ["category \x27", c,
    "\x27 must be one of (\x27color\x27, \x27spacing\x27, \x27typography\x27, \x27shadow\x27, \x27radius\x27, \x27opacity\x27, \x27z-index\x27, \x27breakpoint\x27, \x27motion\x27, \x27border\x27)"]

def colorErrMsg (v : String) : String :=
  strCat ["value \x27", v, "\x27 doesn\x27t look like a valid color"]

def spacingErrMsg (v : String) : String :=
  strCat ["spacing value \x27", v, "\x27 should include a unit (px/rem/em)"]

/-- `Token.validate`: collect all validation errors in source order. -/
def Token.validate (t : Token) : List String :=
  (if t.name = "" then ["name is required"] else [])
  ++ (if nameRegexMatch (asciiLower t.name).data then [] else [nameErrMsg t.name])
  ++ (if CATEGORIES.contains t.category then [] else [catErrMsg t.category])
  ++ (if t.value = "" then ["value is required"] else [])
  ++ (if t.category = "color" && !isValidColor t.value then [colorErrMsg t.value] else [])
  ++ (if t.category = "spacing"
        && !spacingUnitMatch (pyStrip t.value).data
        && !("var(".data.isPrefixOf t.value.data)
      then [spacingErrMsg t.value] else [])

/-! ## Comma-joined list columns

The `tokens` table stores `aliases` and `tags` as comma-joined text
(`",".join(...)` on write, `.split(",") if nonempty else []` on read). -/

/-- Join character lists with a separator, as Python `sep.join`. -/
def interAux (sep : List Char) : List (List Char) → List Char
  | [] => []
  | [x] => x
  | x :: y :: rest => x ++ sep ++ interAux sep (y :: rest)

/-- Python `",".join(xs)`. -/
def joinCommaList (xs : List String) : String :=
  ⟨interAux [','] (xs.map String.data)⟩

/-- Python `s.split(",")` over a character list (`cur` holds the current
field reversed). -/
def splitCAux : List Char → List Char → List (List Char)
  | [], cur => [cur.reverse]
  | c :: rest, cur =>
    if c = ',' then cur.reverse :: splitCAux rest []
    else splitCAux rest (c :: cur)

/-- The read-side decoding `s.split(",") if s else []`. -/
def pySplitComma (s : String) : List String :=
  if s.data.isEmpty then [] else (splitCAux s.data []).map String.mk

/-- Python `"; ".join(errors)`, used to build exception messages. -/
def joinSemi (es : List String) : String :=
  ⟨interAux [';', ' '] (es.map String.data)⟩

/-! ## The SQLite store -/

/-- A row of the `tokens` table, with the column types the source
declares (`deprecated` is an INTEGER, `aliases` and `tags` are
comma-joined TEXT). -/
structure Row where
  id : String
  name : String
  category : String
  value : String
  description : String
  aliases : String
  deprecated : Int
  deprecated_reason : String
  tags : String
  created_at : String
  updated_at : String
  version : Int
deriving DecidableEq

/-- A row of the `token_snapshots` table.  The source stores `data` as
the JSON text of `TokenSet.to_dict()` and reads back the `tokens` array
through `json.loads` plus the `Token` constructor; since that JSON
round-trip is the identity on every token field, `data` is modelled
directly as the token list it serializes. -/
structure Snap where
  id : String
  version : String
  name : String
  description : String
  data : List Token
  created_at : String
deriving DecidableEq

/-- The database state: the two tables, rows in insertion order. -/
structure DBState where
  tokens : List Row
  snaps : List Snap
deriving DecidableEq

/-- `_row_to_token`. -/
def rowToToken (r : Row) : Token :=
  { id := r.id, name := r.name, category := r.category, value := r.value,
    description := r.description,
    aliases := pySplitComma r.aliases,
    deprecated := r.deprecated ≠ 0,
    deprecated_reason := r.deprecated_reason,
    tags := pySplitComma r.tags,
    created_at := r.created_at, updated_at := r.updated_at,
    version := r.version }

/-- The column tuple of the INSERT in `add_token`. -/
def tokenToRow (t : Token) : Row :=
  { id := t.id, name := t.name, category := t.category, value := t.value,
    description := t.description,
    aliases := joinCommaList t.aliases,
    deprecated := if t.deprecated then 1 else 0,
    deprecated_reason := t.deprecated_reason,
    tags := joinCommaList t.tags,
    created_at := t.created_at, updated_at := t.updated_at,
    version := t.version }

/-- `SELECT * FROM tokens WHERE id=? OR name=?` (first match in row
order). -/
def findRow (s : DBState) (key : String) : Option Row :=
  s.tokens.find? fun r => r.id = key || r.name = key

/-- The duplicate-insert error message of `add_token`. -/
def dupMsg (n : String) : String :=
  strCat ["Token with name \x27", n, "\x27 already exists"]

/-- `add_token`: validate, stamp timestamps (a caller-supplied non-empty
`created_at` is kept, by Python `or`-truthiness), then INSERT; the UNIQUE
name constraint and the id PRIMARY KEY raise `IntegrityError`, reported
as the duplicate-name `ValueError`.  Returns the result together with
the state after the call. -/
def add_token (t : Token) (now : String) (s : DBState) :
    Except String Token × DBState :=
  if t.validate ≠ [] then
    (.error (strCat ["Token validation failed: ", joinSemi t.validate]), s)
  else
    let t := { t with created_at := if t.created_at = "" then now else t.created_at,
                      updated_at := now }
    if s.tokens.any (fun r => r.id = t.id || r.name = t.name) then
      (.error (dupMsg t.name), s)
    else
      (.ok t, { s with tokens := s.tokens ++ [tokenToRow t] })

/-- The keyword arguments of `update_token` (`**fields`).  Every `Token`
attribute can be named, because the source guards assignment only with
`hasattr`; keywords that name no attribute are ignored by the source and
therefore not modelled. -/
structure Fields where
  id : Option String := none
  name : Option String := none
  category : Option String := none
  value : Option String := none
  description : Option String := none
  aliases : Option (List String) := none
  deprecated : Option Bool := none
  deprecated_reason : Option String := none
  tags : Option (List String) := none
  created_at : Option String := none
  updated_at : Option String := none
  version : Option Int := none
deriving DecidableEq

/-- The `setattr` loop of `update_token`. -/
def applyFields (t : Token) (f : Fields) : Token :=
  { id := f.id.getD t.id,
    name := f.name.getD t.name,
    category := f.category.getD t.category,
    value := f.value.getD t.value,
    description := f.description.getD t.description,
    aliases := f.aliases.getD t.aliases,
    deprecated := f.deprecated.getD t.deprecated,
    deprecated_reason := f.deprecated_reason.getD t.deprecated_reason,
    tags := f.tags.getD t.tags,
    created_at := f.created_at.getD t.created_at,
    updated_at := f.updated_at.getD t.updated_at,
    version := f.version.getD t.version }

/-- The in-memory token `update_token` builds before re-validating:
patched fields, then `updated_at = now` and `version += 1`. -/
def patchedToken (row : Row) (f : Fields) (now : String) : Token :=
  let t := applyFields (rowToToken row) f
  { t with updated_at := now, version := t.version + 1 }

/-- The UPDATE statement of `update_token`: it sets `category`, `value`,
`description`, `aliases`, `deprecated`, `deprecated_reason`, `tags`,
`updated_at` and `version` (not `id`, `name` or `created_at`). -/
def updateRowWith (t : Token) (r : Row) : Row :=
  { r with category := t.category, value := t.value,
           description := t.description,
           aliases := joinCommaList t.aliases,
           deprecated := if t.deprecated then 1 else 0,
           deprecated_reason := t.deprecated_reason,
           tags := joinCommaList t.tags,
           updated_at := t.updated_at,
           version := t.version }

/-- `update_token`.  The UPDATE's WHERE clause compares against the
patched token's `id`. -/
def update_token (key : String) (f : Fields) (now : String) (s : DBState) :
    Except String Token × DBState :=
  match findRow s key with
  | none => (.error (strCat ["Token not found: \x27", key, "\x27"]), s)
  | some row =>
    let tok := patchedToken row f now
    if tok.validate ≠ [] then
      (.error (strCat ["Validation failed: ", joinSemi tok.validate]), s)
    else
      (.ok tok,
        { s with tokens := s.tokens.map fun r =>
            if r.id = tok.id then updateRowWith tok r else r })

/-- `get_token`. -/
def get_token (key : String) (s : DBState) : Option Token :=
  (findRow s key).map rowToToken

/-- `delete_token`: DELETE WHERE id or name matches; reports whether a
row was removed. -/
def delete_token (key : String) (s : DBState) : Bool × DBState :=
  (s.tokens.any (fun r => r.id = key || r.name = key),
   { s with tokens := s.tokens.filter fun r => !(r.id = key || r.name = key) })

/-! ## Listing and snapshots -/

/-- `ORDER BY category, name` (SQLite BINARY collation; ties are
impossible because names are unique). -/
def rowLE (a b : Row) : Bool :=
  a.category < b.category || (a.category = b.category && a.name ≤ b.name)

def insertRowSorted (r : Row) : List Row → List Row
  | [] => [r]
  | x :: xs => if rowLE r x then r :: x :: xs else x :: insertRowSorted r xs

def sortRows (l : List Row) : List Row :=
  l.foldr insertRowSorted []

/-- `list_tokens` with no category filter and deprecated included — the
form `save_snapshot` reads (`export_json_snapshot` calls `list_tokens`
with defaults). -/
def list_tokens (s : DBState) : List Token :=
  (sortRows s.tokens).map rowToToken

/-- `save_snapshot`: serialize the current catalogue and INSERT it into
`token_snapshots` under a fresh id.  The caller-visible version label and
the fresh uuid are parameters. -/
def save_snapshot (version name description sid now : String) (s : DBState) :
    DBState :=
  { s with snaps := s.snaps ++
      [{ id := sid, version := version, name := name,
         description := description, data := list_tokens s,
         created_at := now }] }

/-- Python dict assignment `m[k] = v`: overwrite in place or append. -/
def dictUpdate (m : List (String × Token)) (k : String) (v : Token) :
    List (String × Token) :=
  if m.any (fun p => p.1 = k) then
    m.map fun p => if p.1 = k then (k, v) else p
  else m ++ [(k, v)]

/-- A Python dict built from a key-value sequence (later entries win). -/
def dictOfList (l : List (String × Token)) : List (String × Token) :=
  l.foldl (fun m p => dictUpdate m p.1 p.2) []

/-- `_load_snapshot_tokens`: find by snapshot id or version label and
deserialize into the name-to-token dict. -/
def loadSnapshotTokens (sid : String) (s : DBState) :
    Option (List (String × Token)) :=
  (s.snaps.find? fun sn => sn.id = sid || sn.version = sid).map fun sn =>
    dictOfList (sn.data.map fun t => (t.name, t))

/-! ## Diff -/

/-- `n in m` for the name-to-token dicts. -/
def keyMem (m : List (String × Token)) (n : String) : Bool :=
  m.any fun p => p.1 = n

/-- `m[n]` lookup. -/
def lookupTok (m : List (String × Token)) (n : String) : Option Token :=
  (m.find? fun p => p.1 = n).map Prod.snd

/-- The change test of `diff`: `value`, `category` or `deprecated`
differs. -/
def tokensDiffer (ta tb : Token) : Bool :=
  ta.value ≠ tb.value || ta.category ≠ tb.category
    || ta.deprecated ≠ tb.deprecated

/-- A record of `diff`'s `changed` payload: before/after snapshots of
exactly `value`, `category` and `deprecated`. -/
structure ChangeRec where
  beforeValue : String
  beforeCategory : String
  beforeDeprecated : Bool
  afterValue : String
  afterCategory : String
  afterDeprecated : Bool
deriving DecidableEq

def changeRec (ta tb : Token) : ChangeRec :=
  { beforeValue := ta.value, beforeCategory := ta.category,
    beforeDeprecated := ta.deprecated,
    afterValue := tb.value, afterCategory := tb.category,
    afterDeprecated := tb.deprecated }

/-- `added`: names in `b` but not in `a`, with `b`'s token. -/
def diffAdded (a b : List (String × Token)) : List (String × Token) :=
  b.filter fun p => !keyMem a p.1

/-- `removed`: names in `a` but not in `b`, with `a`'s token. -/
def diffRemoved (a b : List (String × Token)) : List (String × Token) :=
  a.filter fun p => !keyMem b p.1

/-- The names in both dicts, with `a`'s token (the iteration domain
`set(a) & set(b)`). -/
def diffShared (a b : List (String × Token)) : List (String × Token) :=
  a.filter fun p => keyMem b p.1

/-- `changed`: shared names whose tracked fields differ, with the
before/after record. -/
def diffChanged (a b : List (String × Token)) : List (String × ChangeRec) :=
  (diffShared a b).filterMap fun p =>
    match lookupTok b p.1 with
    | some tb => if tokensDiffer p.2 tb then some (p.1, changeRec p.2 tb) else none
    | none => none

/-- `unchanged`: the count of shared names with no tracked difference. -/
def diffUnchanged (a b : List (String × Token)) : Nat :=
  (diffShared a b).countP fun p =>
    match lookupTok b p.1 with
    | some tb => !tokensDiffer p.2 tb
    | none => false

/-- The payload of `diff` (the summary counts are the lengths of the
three lists together with `unchanged`). -/
structure DiffResult where
  added : List (String × Token)
  removed : List (String × Token)
  changed : List (String × ChangeRec)
  unchanged : Nat
deriving DecidableEq

/-- `diff` on two resolved name-to-token dicts. -/
def diffMaps (a b : List (String × Token)) : DiffResult :=
  { added := diffAdded a b, removed := diffRemoved a b,
    changed := diffChanged a b, unchanged := diffUnchanged a b }

/-! ## Bulk import -/

/-- `sub in s` for strings (Python substring containment). -/
def containsSubL (sub : List Char) : List Char → Bool
  | [] => sub.isEmpty
  | c :: rest => sub.isPrefixOf (c :: rest) || containsSubL sub rest

def containsSubstr (s sub : String) : Bool :=
  containsSubL sub.data s.data

/-- One parsed entry of the import file: either a JSON object (with the
`value`, `category`, `description` and `tags` fields already resolved
through the dollar-prefixed/plain fallback and `str()` conversion of the
value) or a non-object, which the loop skips with `continue`. -/
inductive ImportVal where
  | record (value : String) (category : String) (description : String)
      (tags : List String)
  | nonRecord
deriving DecidableEq

/-- The `Token(...)` constructed for one import entry (fresh id `tid`);
a declared category outside `CATEGORIES` falls back to `"color"`. -/
def importEntryToken (n value category description : String)
    (tags : List String) (tid now : String) : Token :=
  { id := tid, name := n,
    category := if CATEGORIES.contains category then category else "color",
    value := value, description := description,
    aliases := [], deprecated := false, deprecated_reason := "",
    tags := tags, created_at := now, updated_at := now, version := 1 }

/-- The entry loop of `import_json`: each entry is attempted with
`add_token`; a `ValueError` whose message contains `"already exists"`
increments `skipped`, any other `ValueError` message is collected.
`ids` supplies the per-entry `uuid4()` values; `now` stands for the
clock, held fixed across the batch. -/
def importLoop (now : String) :
    List (String × ImportVal) → List String → DBState →
    (Nat × Nat × List String) × DBState
  | [], _, s => ((0, 0, []), s)
  | (_, .nonRecord) :: rest, ids, s => importLoop now rest ids s
  | (n, .record v c d tg) :: rest, ids, s =>
    let t := importEntryToken n v c d tg (ids.headD "") now
    match add_token t now s with
    | (.ok _, s2) =>
      let r := importLoop now rest ids.tail s2
      ((r.1.1 + 1, r.1.2.1, r.1.2.2), r.2)
    | (.error e, s2) =>
      if containsSubstr e "already exists" then
        let r := importLoop now rest ids.tail s2
        ((r.1.1, r.1.2.1 + 1, r.1.2.2), r.2)
      else
        let r := importLoop now rest ids.tail s2
        ((r.1.1, r.1.2.1, e :: r.1.2.2), r.2)

/-- `import_json` on the parsed file contents: returns
`(added, skipped, errors)` and the resulting store. -/
def import_json (entries : List (String × ImportVal)) (ids : List String)
    (now : String) (s : DBState) : (Nat × Nat × List String) × DBState :=
  importLoop now entries ids s

/-- The number of record-shaped (object) entries of an import source. -/
def recordCount (entries : List (String × ImportVal)) : Nat :=
  entries.countP fun p => match p.2 with
    | .record .. => true
    | .nonRecord => false

/-! ## Operation sequences over the live store (for the snapshot
immutability claim) -/

/-- A live-store mutation: `add_token`, `update_token` or
`delete_token`, with the error paths leaving the state as the functions
return it. -/
inductive Op where
  | add (t : Token) (now : String)
  | update (key : String) (f : Fields) (now : String)
  | del (key : String)

def applyOp (s : DBState) : Op → DBState
  | .add t now => (add_token t now s).2
  | .update key f now => (update_token key f now s).2
  | .del key => (delete_token key s).2

def applyOps (s : DBState) (ops : List Op) : DBState :=
  ops.foldl applyOp s

/-! ## Claim-side (spec-worded) definitions, for comparison against the
implementation -/

/-- Modelled from the spec (as amended): a color value is accepted when
its stripped form is `#` followed by 3, 6 or 8 hex digits, begins with
one of the functional prefixes, is a `var(--` reference, or equals
`transparent` / `currentColor` / `inherit` case-insensitively. -/
def specHexShape (l : List Char) : Bool :=
  l.headD ' ' = '#' && (l.tail.length = 3 || l.tail.length = 6 || l.tail.length = 8)
    && l.tail.all isHexDigit

def specColorShape (v : String) : Bool :=
  specHexShape (pyStrip v).data || colorRestMatch (pyStrip v).data

/-- The claim's stated title-casing of a segment: first letter
upper-cased, the remaining characters unchanged in case. -/
def claimTitleSeg (l : List Char) : List Char :=
  match l with
  | [] => []
  | c :: rest => c.toUpper :: rest

/-- The claim's stated `camelKey`: split on separator runs, lower-case
the first segment, upper-case only the first letter of each later
segment, concatenate. -/
def claimCamelKey (name : String) : String :=
  match pySplitSeps name with
  | [] => ""
  | p :: rest =>
    asciiLower p ++ String.join (rest.map fun s => ⟨claimTitleSeg s.data⟩)

/-- A segment consisting only of ASCII lower-case letters. -/
def lowerAlphaSeg (s : String) : Bool :=
  s.data.all fun c => 97 ≤ c.toNat && c.toNat ≤ 122

/-- Aliases and tags entries that survive the comma-joined storage
encoding: non-empty and comma-free. -/
def shapelyList (xs : List String) : Bool :=
  xs.all fun x => !x.data.isEmpty && x.data.all fun c => c ≠ ','

/-! ## Concrete sample data used by counterexamples and witnesses -/

/-- A color-category token with the given name and value, and otherwise
default fields (as the repository's test helper `make_token` builds). -/
def mkColorToken (n v : String) : Token :=
  { id := "id-1", name := n, category := "color", value := v,
    created_at := "t0", updated_at := "t0" }

/-- The stored row of a sample token whose value is also a valid spacing
value (a `var(` reference). -/
def exRow : Row := tokenToRow (mkColorToken "x" "var(--a)")

/-- A one-token sample store. -/
def exVarState : DBState := { tokens := [exRow], snaps := [] }

/-- A sample patch supplying only `value`. -/
def exPatch : Fields := { value := some "#000000" }


theorem hex_regroup (l : List Char) :
    (hexMatch36 l || hexMatch8 l) = specHexShape l := by
  unfold hexMatch36 hexMatch8 specHexShape
  generalize (decide (l.headD ' ' = '#')) = a
  generalize l.tail.all isHexDigit = h
  generalize (decide (l.tail.length = 3)) = n3
  generalize (decide (l.tail.length = 6)) = n6
  generalize (decide (l.tail.length = 8)) = n8
  cases a <;> cases h <;> cases n3 <;> cases n6 <;> cases n8 <;> rfl

theorem isValidColor_eq_spec (v : String) :
    isValidColor v = specColorShape v := by
  unfold isValidColor specColorShape
  rw [hex_regroup]

theorem colorErr_head (v : String) : (colorErrMsg v).data.head? = some 'v' := rfl

theorem colorErr_six (v : String) :
    ((colorErrMsg v).data.drop 6).head? = some '\x27' := rfl

theorem nameErr_head (n : String) : (nameErrMsg n).data.head? = some 'n' := rfl

theorem catErr_head (c : String) : (catErrMsg c).data.head? = some 'c' := rfl

theorem colorErr_ne_nameReq (v : String) : colorErrMsg v ≠ "name is required" := by
  intro h
  have h2 : (colorErrMsg v).data.head? = ("name is required" : String).data.head? := by rw [h]
  rw [colorErr_head] at h2
  exact absurd h2 (by decide)

theorem colorErr_ne_nameMsg (v n : String) : colorErrMsg v ≠ nameErrMsg n := by
  intro h
  have h2 : (colorErrMsg v).data.head? = (nameErrMsg n).data.head? := by rw [h]
  rw [colorErr_head, nameErr_head] at h2
  exact absurd h2 (by decide)

theorem colorErr_ne_catMsg (v c : String) : colorErrMsg v ≠ catErrMsg c := by
  intro h
  have h2 : (colorErrMsg v).data.head? = (catErrMsg c).data.head? := by rw [h]
  rw [colorErr_head, catErr_head] at h2
  exact absurd h2 (by decide)

theorem colorErr_ne_valueReq (v : String) : colorErrMsg v ≠ "value is required" := by
  intro h
  have h2 : ((colorErrMsg v).data.drop 6).head? = (("value is required" : String).data.drop 6).head? := by rw [h]
  rw [colorErr_six] at h2
  exact absurd h2 (by decide)

theorem mem_ite_singleton {p : Prop} [Decidable p] {a x : String} :
    (a ∈ (if p then [x] else ([] : List String))) ↔ p ∧ a = x := by
  by_cases h : p <;> simp [h]

theorem mem_ite_nil {p : Prop} [Decidable p] {a x : String} :
    (a ∈ (if p then ([] : List String) else [x])) ↔ ¬p ∧ a = x := by
  by_cases h : p <;> simp [h]

theorem validate_color (t : Token) (h : t.category = "color") :
    t.validate =
      (if t.name = "" then ["name is required"] else [])
      ++ (if nameRegexMatch (asciiLower t.name).data then [] else [nameErrMsg t.name])
      ++ (if t.value = "" then ["value is required"] else [])
      ++ (if isValidColor t.value then [] else [colorErrMsg t.value]) := by
  rw [Token.validate, h]
  have hc : CATEGORIES.contains "color" = true := rfl
  have hs : (decide (("color" : String) = "spacing")) = false := rfl
  have hcc : (decide (("color" : String) = "color")) = true := rfl
  have hm : ("color" : String) ∈ CATEGORIES := by decide
  simp [hc, hs, hcc, hm]
  cases hv : isValidColor t.value <;> simp [hv]


/-- C1 counterexample: the color validator rejects the 4-digit hex value
`#abcd`, and a color-category token with that value reports a color
error, contrary to the claim; `blue` and `not-a-color` do report color
errors as the claim states. -/
theorem c1_counterexample :
    isValidColor "#abcd" = false
    ∧ colorErrMsg "#abcd" ∈ (mkColorToken "color/four" "#abcd").validate
    ∧ (mkColorToken "color/four" "#abcd").validate ≠ []
    ∧ colorErrMsg "blue" ∈ (mkColorToken "color/b" "blue").validate
    ∧ colorErrMsg "not-a-color" ∈ (mkColorToken "color/n" "not-a-color").validate := by
  decide

/-- C1 (corrected): the color validator accepts exactly the amended
shapes — a 3-, 6- or 8-digit hex value (4-digit values are rejected),
the functional prefixes, a `var(--` reference, or the case-insensitive
literals — and validation of a color-category token reports the color
error exactly when the value has none of these shapes. -/
theorem c1_color_validator :
    (∀ v : String, isValidColor v = specColorShape v)
    ∧ (∀ t : Token, t.category = "color" →
        (colorErrMsg t.value ∈ t.validate ↔ specColorShape t.value = false)) := by
  refine ⟨isValidColor_eq_spec, fun t h => ?_⟩
  rw [validate_color t h, ← isValidColor_eq_spec]
  simp only [List.mem_append, mem_ite_singleton, mem_ite_nil]
  simp [colorErr_ne_nameReq, colorErr_ne_nameMsg, colorErr_ne_catMsg, colorErr_ne_valueReq]

/-- C1 witness. -/
theorem c1_color_validator_witness :
    colorErrMsg "blue" ∈ (mkColorToken "color/b" "blue").validate ↔
      specColorShape "blue" = false :=
  c1_color_validator.2 (mkColorToken "color/b" "blue") rfl


theorem toLower_eq_self (c : Char) (h : (97 ≤ c.toNat && c.toNat ≤ 122) = true) :
    c.toLower = c := by
  unfold Char.toLower
  simp only [Bool.and_eq_true, decide_eq_true_eq] at h
  rw [if_neg]
  omega

theorem isCasedChar_of_lower (c : Char) (h : (97 ≤ c.toNat && c.toNat ≤ 122) = true) :
    isCasedChar c = true := by
  unfold isCasedChar
  rw [h, Bool.true_or]

theorem titleChars_lower (l : List Char)
    (h : l.all (fun c => 97 ≤ c.toNat && c.toNat ≤ 122) = true) :
    titleChars l true = l := by
  induction l with
  | nil => rfl
  | cons c rest ih =>
    rw [List.all_cons, Bool.and_eq_true] at h
    simp [titleChars, isCasedChar_of_lower c h.1, toLower_eq_self c h.1, ih h.2]

theorem titleChars_seg (l : List Char)
    (h : l.all (fun c => 97 ≤ c.toNat && c.toNat ≤ 122) = true) :
    titleChars l false = claimTitleSeg l := by
  cases l with
  | nil => rfl
  | cons c rest =>
    rw [List.all_cons, Bool.and_eq_true] at h
    simp [titleChars, claimTitleSeg, isCasedChar_of_lower c h.1,
      titleChars_lower rest h.2]

/-- C9 counterexample: on the seed name `typography/size/2xl` the code
produces `typographySize2Xl` (Python `str.title` upper-cases the `x`
that follows the digit), while the claim's rule (first letter
upper-cased, the rest unchanged in case) yields `typographySize2xl`. -/
theorem c9_counterexample :
    camel "typography/size/2xl" = "typographySize2Xl"
    ∧ claimCamelKey "typography/size/2xl" = "typographySize2xl"
    ∧ camel "typography/size/2xl" ≠ claimCamelKey "typography/size/2xl" := by
  decide

/-- C9 (corrected): `camelKey` splits the name on runs of hyphen,
slash, dot or space, lower-cases the first segment and transforms each
later segment with Python `str.title`; when the later segments consist
only of lower-case letters this coincides with the claim's
first-letter-upper-cased rule, and the claim's two examples hold. -/
theorem c9_camel_key :
    (∀ name : String, ((pySplitSeps name).tail.all lowerAlphaSeg) = true →
      camel name = claimCamelKey name)
    ∧ camel "font-size" = "fontSize"
    ∧ camel "color/brand/primary" = "colorBrandPrimary" := by
  refine ⟨fun name h => ?_, by decide, by decide⟩
  unfold camel claimCamelKey
  cases hs : pySplitSeps name with
  | nil => rfl
  | cons p rest =>
    rw [hs] at h
    simp only [List.tail_cons] at h
    dsimp only
    congr 2
    apply List.map_congr_left
    intro s hsMem
    have hx := List.all_eq_true.mp h s hsMem
    unfold lowerAlphaSeg at hx
    unfold pyTitle
    rw [titleChars_seg s.data hx]

/-- C9 witness. -/
theorem c9_camel_key_witness :
    camel "font-size" = claimCamelKey "font-size" :=
  c9_camel_key.1 "font-size" (by decide)


theorem lookupTok_self (m : List (String × Token))
    (hnd : (m.map Prod.fst).Nodup) {p : String × Token} (hp : p ∈ m) :
    lookupTok m p.1 = some p.2 := by
  induction m with
  | nil => cases hp
  | cons q rest ih =>
    rw [List.map_cons, List.nodup_cons] at hnd
    rcases List.mem_cons.mp hp with hq | hmem
    · subst hq
      simp [lookupTok, List.find?_cons_of_pos]
    · have hne : ¬(q.1 = p.1) := by
        intro he
        exact hnd.1 (he ▸ List.mem_map_of_mem Prod.fst hmem)
      have := ih hnd.2 hmem
      simp only [lookupTok] at this ⊢
      rw [List.find?_cons_of_neg _ (by simpa using hne)]
      exact this

theorem tokensDiffer_self (t : Token) : tokensDiffer t t = false := by
  simp [tokensDiffer]

theorem keyMem_of_mem {m : List (String × Token)} {p : String × Token}
    (hp : p ∈ m) : keyMem m p.1 = true :=
  List.any_eq_true.mpr ⟨p, hp, by simp⟩

theorem diffMaps_self (m : List (String × Token))
    (hnd : (m.map Prod.fst).Nodup) :
    diffMaps m m = ⟨[], [], [], m.length⟩ := by
  have hsh : diffShared m m = m :=
    List.filter_eq_self.mpr fun p hp => keyMem_of_mem hp
  unfold diffMaps diffAdded diffRemoved diffChanged diffUnchanged
  rw [hsh, DiffResult.mk.injEq]
  refine ⟨?_, ?_, ?_, ?_⟩
  · exact List.filter_eq_nil_iff.mpr fun p hp => by simp [keyMem_of_mem hp]
  · exact List.filter_eq_nil_iff.mpr fun p hp => by simp [keyMem_of_mem hp]
  · refine List.filterMap_eq_nil_iff.mpr fun p hp => ?_
    rw [lookupTok_self m hnd hp]
    simp [tokensDiffer_self]
  · refine List.countP_eq_length.mpr fun p hp => ?_
    rw [lookupTok_self m hnd hp]
    simp [tokensDiffer_self]


theorem dictUpdate_keys (m : List (String × Token)) (k : String) (v : Token) :
    (dictUpdate m k v).map Prod.fst =
      if m.any (fun p => p.1 = k) then m.map Prod.fst
      else m.map Prod.fst ++ [k] := by
  unfold dictUpdate
  split
  · rw [List.map_map]
    apply List.map_congr_left
    intro p _
    by_cases hp : p.1 = k <;> simp [hp]
  · simp

theorem dictOfList_keys_nodup (l : List (String × Token)) :
    ((dictOfList l).map Prod.fst).Nodup := by
  suffices h : ∀ (l : List (String × Token)) (m : List (String × Token)),
      (m.map Prod.fst).Nodup →
      ((l.foldl (fun m p => dictUpdate m p.1 p.2) m).map Prod.fst).Nodup by
    exact h l [] List.nodup_nil
  intro l
  induction l with
  | nil => intro m hm; exact hm
  | cons p rest ih =>
    intro m hm
    refine ih _ ?_
    rw [dictUpdate_keys]
    split
    · exact hm
    · rename_i hany
      refine List.Nodup.append hm (List.nodup_singleton _) ?_
      intro a ha hb
      rcases List.mem_singleton.mp hb with rfl
      rcases List.mem_map.mp ha with ⟨q, hq, hq1⟩
      exact hany (List.any_eq_true.mpr ⟨q, hq, by simp [hq1]⟩)

/-- C7: diffing a resolved snapshot against itself yields empty added,
removed and changed sets, and an unchanged count equal to the number of
tokens in the snapshot mapping. -/
theorem c7_diff_self (s : DBState) (sid : String) (m : List (String × Token))
    (h : loadSnapshotTokens sid s = some m) :
    diffMaps m m = ⟨[], [], [], m.length⟩ := by
  have hnd : (m.map Prod.fst).Nodup := by
    unfold loadSnapshotTokens at h
    rcases Option.map_eq_some'.mp h with ⟨sn, _, hsn⟩
    rw [← hsn]
    exact dictOfList_keys_nodup _
  exact diffMaps_self m hnd

/-- C7 witness. -/
theorem c7_diff_self_witness :
    diffMaps
        [("color/upd", { mkColorToken "color/upd" "#3b82f6" with updated_at := "t1" })]
        [("color/upd", { mkColorToken "color/upd" "#3b82f6" with updated_at := "t1" })] =
      ⟨[], [], [], 1⟩ :=
  c7_diff_self
    (save_snapshot "v1" "snap" "" "sid1" "tS"
      (add_token (mkColorToken "color/upd" "#3b82f6") "t1" ⟨[], []⟩).2)
    "sid1" _ (by decide)


theorem find?_fst_eq {m : List (String × Token)} {n : String} {q : String × Token}
    (h : m.find? (fun p => p.1 = n) = some q) : q ∈ m ∧ q.1 = n :=
  ⟨List.mem_of_find?_eq_some h, by simpa using List.find?_some h⟩

/-- C6: for two name-to-token mappings, a name present in both appears
under `changed` exactly when the two tokens differ in value, category
or deprecated — tokens differing only in description, tags or aliases
are counted as unchanged — and every changed record for the name
carries the before/after values of exactly those three fields. -/
theorem c6_diff_changed (a b : List (String × Token))
    (ha : (a.map Prod.fst).Nodup) (n : String) (ta tb : Token)
    (hta : lookupTok a n = some ta) (htb : lookupTok b n = some tb) :
    ((n, changeRec ta tb) ∈ (diffMaps a b).changed ↔ tokensDiffer ta tb = true)
    ∧ ∀ rec : ChangeRec, (n, rec) ∈ (diffMaps a b).changed → rec = changeRec ta tb := by
  -- the entry of `a` behind `hta`
  obtain ⟨qa, hfa⟩ : ∃ q, a.find? (fun p => p.1 = n) = some q := by
    unfold lookupTok at hta
    rcases Option.map_eq_some'.mp hta with ⟨q, hq, _⟩
    exact ⟨q, hq⟩
  have hqa := find?_fst_eq hfa
  have hqa2 : qa.2 = ta := by
    unfold lookupTok at hta
    rw [hfa] at hta
    exact Option.some_inj.mp hta
  have hmemA : (n, ta) ∈ a := by
    have : qa = (n, ta) := Prod.ext hqa.2 hqa2
    exact this ▸ hqa.1
  obtain ⟨qb, hfb⟩ : ∃ q, b.find? (fun p => p.1 = n) = some q := by
    unfold lookupTok at htb
    rcases Option.map_eq_some'.mp htb with ⟨q, hq, _⟩
    exact ⟨q, hq⟩
  have hkb : keyMem b n = true := by
    have hqb := find?_fst_eq hfb
    exact List.any_eq_true.mpr ⟨qb, hqb.1, by simp [hqb.2]⟩
  -- membership characterization
  have hchar : ∀ rec : ChangeRec, (n, rec) ∈ (diffMaps a b).changed ↔
      (tokensDiffer ta tb = true ∧ rec = changeRec ta tb) := by
    intro rec
    show (n, rec) ∈ diffChanged a b ↔ _
    unfold diffChanged diffShared
    rw [List.mem_filterMap]
    constructor
    · rintro ⟨p, hp, hfp⟩
      rw [List.mem_filter] at hp
      -- the produced pair has first component p.1, so p.1 = n
      have hp1 : p.1 = n := by
        rcases hlb : lookupTok b p.1 with _ | tb'
        · rw [hlb] at hfp; cases hfp
        · rw [hlb] at hfp
          dsimp only at hfp
          by_cases hd : tokensDiffer p.2 tb' = true
          · rw [if_pos hd] at hfp
            have h2 := Option.some_inj.mp hfp
            exact congrArg Prod.fst h2
          · rw [if_neg hd] at hfp; cases hfp
      have hpa : p.2 = ta := by
        have := lookupTok_self a ha hp.1
        rw [hp1, hta] at this
        exact (Option.some_inj.mp this).symm
      rw [hp1, htb] at hfp
      dsimp only at hfp
      by_cases hd : tokensDiffer p.2 tb = true
      · rw [if_pos hd] at hfp
        have h2 := congrArg Prod.snd (Option.some_inj.mp hfp)
        exact ⟨hpa ▸ hd, (h2.symm.trans (by rw [hpa]) : rec = changeRec ta tb)⟩
      · rw [if_neg hd] at hfp; cases hfp
    · rintro ⟨hd, rfl⟩
      refine ⟨(n, ta), List.mem_filter.mpr ⟨hmemA, hkb⟩, ?_⟩
      show (match lookupTok b n with
        | some tb => if tokensDiffer ta tb = true then some (n, changeRec ta tb) else none
        | none => none) = _
      rw [htb]
      simp [hd]
  exact ⟨(hchar _).trans (by simp), fun rec h => ((hchar rec).mp h).2⟩


/-- C4: when the patched token fails validation, `update_token` reports
the validation error and returns the store unchanged. -/
theorem c4_update_all_or_nothing (s : DBState) (key now : String) (f : Fields)
    (row : Row) (hrow : findRow s key = some row)
    (hbad : (patchedToken row f now).validate ≠ []) :
    update_token key f now s =
      (.error (strCat ["Validation failed: ",
          joinSemi (patchedToken row f now).validate]), s) := by
  unfold update_token
  rw [hrow]
  dsimp only
  rw [if_pos hbad]

theorem splitCAux_ne_nil (l : List Char) : ∀ cur, splitCAux l cur ≠ [] := by
  induction l with
  | nil => intro cur; simp [splitCAux]
  | cons c rest ih =>
    intro cur
    rw [splitCAux]
    split
    · simp
    · exact ih (c :: cur)

theorem interAux_splitCAux (l : List Char) :
    ∀ cur, interAux [','] (splitCAux l cur) = cur.reverse ++ l := by
  induction l with
  | nil => intro cur; simp [splitCAux, interAux]
  | cons c rest ih =>
    intro cur
    by_cases hc : c = ','
    · subst hc
      rw [splitCAux, if_pos rfl]
      have hne : splitCAux rest [] ≠ [] := splitCAux_ne_nil rest []
      rcases hx : splitCAux rest [] with _ | ⟨y, t⟩
      · exact absurd hx hne
      · rw [interAux]
        have := ih []
        rw [hx] at this
        simp only [List.reverse_nil, List.nil_append] at this
        rw [this]
        simp
    · rw [splitCAux, if_neg hc, ih (c :: cur)]
      simp

theorem join_split (s : String) : joinCommaList (pySplitComma s) = s := by
  cases s with
  | mk l =>
    unfold pySplitComma
    by_cases he : l.isEmpty
    · rw [if_pos he]
      unfold joinCommaList
      rw [List.isEmpty_iff.mp he]
      rfl
    · rw [if_neg he]
      unfold joinCommaList
      rw [List.map_map,
        show (String.data ∘ String.mk) = id from rfl, List.map_id,
        interAux_splitCAux]
      rfl


theorem splitCAux_no_comma (l : List Char) :
    ∀ cur, (l.all fun c => c ≠ ',') = true → splitCAux l cur = [cur.reverse ++ l] := by
  induction l with
  | nil => intro cur _; simp [splitCAux]
  | cons c rest ih =>
    intro cur h
    rw [List.all_cons, Bool.and_eq_true] at h
    have hc : ¬(c = ',') := by simpa using h.1
    rw [splitCAux, if_neg hc, ih (c :: cur) h.2]
    simp

theorem splitCAux_past (l : List Char) :
    ∀ (cur rest : List Char), (l.all fun c => c ≠ ',') = true →
      splitCAux (l ++ ',' :: rest) cur = (cur.reverse ++ l) :: splitCAux rest [] := by
  induction l with
  | nil => intro cur rest _; simp [splitCAux]
  | cons c tl ih =>
    intro cur rest h
    rw [List.all_cons, Bool.and_eq_true] at h
    have hc : ¬(c = ',') := by simpa using h.1
    rw [List.cons_append, splitCAux, if_neg hc, ih (c :: cur) rest h.2]
    simp

theorem split_join_shapely (xs : List String) (h : shapelyList xs = true) :
    pySplitComma (joinCommaList xs) = xs := by
  induction xs with
  | nil => rfl
  | cons x rest ih =>
    rw [shapelyList, List.all_cons, Bool.and_eq_true] at h
    obtain ⟨hx, hrest⟩ := h
    rw [Bool.and_eq_true] at hx
    have hxe : ¬x.data.isEmpty := by simpa using hx.1
    have hxc : (x.data.all fun c => c ≠ ',') = true := hx.2
    cases rest with
    | nil =>
      unfold joinCommaList pySplitComma interAux
      dsimp only [List.map_cons, List.map_nil]
      rw [if_neg (by simpa using hxe), splitCAux_no_comma x.data [] hxc]
      simp
    | cons y t =>
      unfold joinCommaList at ih ⊢
      unfold pySplitComma at ih ⊢
      dsimp only [List.map_cons] at ih ⊢
      rw [show interAux [','] (x.data :: y.data :: List.map String.data t)
          = x.data ++ ',' :: interAux [','] (y.data :: List.map String.data t) from by
        rw [interAux]; simp]
      rw [if_neg (by simp :
        ¬(x.data ++ ',' :: interAux [','] (y.data :: List.map String.data t)).isEmpty = true)]
      rw [splitCAux_past x.data [] _ hxc]
      have hne : ¬(interAux [','] (y.data :: List.map String.data t)).isEmpty = true := by
        rcases hy : y.data with _ | ⟨c, cs⟩
        · rw [List.all_cons, Bool.and_eq_true] at hrest
          have h1 := hrest.1
          rw [Bool.and_eq_true] at h1
          have h2 := h1.1
          rw [hy] at h2
          exact absurd h2 (by decide)
        · cases t <;> simp [interAux, hy]
      rw [if_neg hne] at ih
      simp only [List.reverse_nil, List.nil_append, List.map_cons, ih hrest]


/-- C3 (corrected): for every valid token whose name and id are not
already present, `add_token` persists it and returns the stored token
with the caller-supplied id and all content fields preserved,
`updated_at` set to the current time, `created_at` set to the current
time only when the caller left it empty, and `version` stored as the
caller gave it (1 for a freshly constructed token). -/
theorem c3_add_token (t : Token) (now : String) (s : DBState)
    (hval : t.validate = [])
    (hfresh : ∀ r ∈ s.tokens, r.id ≠ t.id ∧ r.name ≠ t.name) :
    ∃ tok, add_token t now s = (.ok tok, { s with tokens := s.tokens ++ [tokenToRow tok] })
      ∧ tok.id = t.id ∧ tok.name = t.name ∧ tok.category = t.category
      ∧ tok.value = t.value ∧ tok.aliases = t.aliases ∧ tok.tags = t.tags
      ∧ tok.description = t.description ∧ tok.deprecated = t.deprecated
      ∧ tok.version = t.version
      ∧ tok.updated_at = now
      ∧ tok.created_at = (if t.created_at = "" then now else t.created_at) := by
  apply Exists.intro
    { t with created_at := (if t.created_at = "" then now else t.created_at),
             updated_at := now }
  refine ⟨?_, rfl, rfl, rfl, rfl, rfl, rfl, rfl, rfl, rfl, rfl, rfl⟩
  unfold add_token
  rw [if_neg (by simp [hval])]
  rw [if_neg ?hcoll]
  case hcoll =>
    intro hany
    rcases List.any_eq_true.mp hany with ⟨r, hr, hp⟩
    rcases Bool.or_eq_true_iff.mp hp with h1 | h1
    · exact (hfresh r hr).1 (by simpa using h1)
    · exact (hfresh r hr).2 (by simpa using h1)

/-- C3 witness. -/
theorem c3_add_token_witness :
    ∃ tok, add_token (mkColorToken "color/w3" "#fff") "t1" ⟨[], []⟩ =
        (.ok tok, { tokens := [tokenToRow tok], snaps := [] })
      ∧ tok.id = "id-1" ∧ tok.name = "color/w3" ∧ tok.category = "color"
      ∧ tok.value = "#fff" ∧ tok.aliases = [] ∧ tok.tags = []
      ∧ tok.description = "" ∧ tok.deprecated = false
      ∧ tok.version = 1
      ∧ tok.updated_at = "t1"
      ∧ tok.created_at = (if "t0" = "" then "t1" else "t0") := by
  have h := c3_add_token (mkColorToken "color/w3" "#fff") "t1" ⟨[], []⟩
    (by decide) (by intro r hr; cases hr)
  simpa [mkColorToken] using h

/-- C3 counterexample: adding a valid fresh-named token whose
caller-supplied `created_at` is `1999-01-01T00:00:00` and whose
`version` is 5 stores both unchanged, contrary to the claim that
`created_at` is set to the current time and `version` to 1. -/
theorem c3_counterexample :
    ((add_token
        { id := "id-9", name := "color/old", category := "color",
          value := "#ffffff", created_at := "1999-01-01T00:00:00",
          updated_at := "", version := 5 }
        "2024-01-01T00:00:00" ⟨[], []⟩).2.tokens.map
      fun r => (r.created_at, r.updated_at, r.version)) =
      [("1999-01-01T00:00:00", "2024-01-01T00:00:00", 5)]
    ∧ ("1999-01-01T00:00:00" : String) ≠ "2024-01-01T00:00:00"
    ∧ (5 : Int) ≠ 1 := by
  decide

/-- C5: snapshots are immutable — after any sequence of add, update
and delete operations on the live store, resolving a previously saved
snapshot yields exactly the name-to-token mapping it resolved to
before those operations. -/
theorem c5_snapshot_immutable (sid : String) (s : DBState) (ops : List Op) :
    loadSnapshotTokens sid (applyOps s ops) = loadSnapshotTokens sid s := by
  suffices h : (applyOps s ops).snaps = s.snaps by
    unfold loadSnapshotTokens
    rw [h]
  induction ops generalizing s with
  | nil => rfl
  | cons op rest ih =>
    show (applyOps (applyOp s op) rest).snaps = s.snaps
    rw [ih (applyOp s op)]
    cases op with
    | add t now =>
      show (add_token t now s).2.snaps = s.snaps
      unfold add_token
      split
      · rfl
      · dsimp only
        split <;> rfl
    | update key f now =>
      show (update_token key f now s).2.snaps = s.snaps
      unfold update_token
      rcases findRow s key with _ | row
      · rfl
      · dsimp only
        split <;> rfl
    | del key => rfl


theorem find?_append_none {p : Row → Bool} {l1 l2 : List Row}
    (h : l1.find? p = none) : (l1 ++ l2).find? p = l2.find? p := by
  induction l1 with
  | nil => rfl
  | cons r rest ih =>
    rcases hc : p r with _ | _
    · rw [List.find?_cons_of_neg _ (by simp [hc])] at h
      rw [List.cons_append, List.find?_cons_of_neg _ (by simp [hc])]
      exact ih h
    · rw [List.find?_cons_of_pos _ hc] at h
      cases h

/-- C10: well-shaped aliases and tags survive the add-then-get round
trip through the comma-joined storage encoding. -/
theorem c10_roundtrip (t : Token) (now : String) (s : DBState)
    (hval : t.validate = [])
    (hfresh : ∀ r ∈ s.tokens, r.id ≠ t.id ∧ r.name ≠ t.name ∧ r.id ≠ t.name)
    (hal : shapelyList t.aliases = true) (htg : shapelyList t.tags = true) :
    ∃ tok s2, add_token t now s = (.ok tok, s2)
      ∧ ∃ t2, get_token t.name s2 = some t2
        ∧ t2.aliases = t.aliases ∧ t2.tags = t.tags := by
  apply Exists.intro
    { t with created_at := (if t.created_at = "" then now else t.created_at),
             updated_at := now }
  apply Exists.intro
    { s with tokens := s.tokens ++ [tokenToRow
        { t with created_at := (if t.created_at = "" then now else t.created_at),
                 updated_at := now }] }
  refine ⟨?_, ?_⟩
  · unfold add_token
    rw [if_neg (by simp [hval])]
    rw [if_neg ?hcoll]
    case hcoll =>
      intro hany
      rcases List.any_eq_true.mp hany with ⟨r, hr, hp⟩
      rcases Bool.or_eq_true_iff.mp hp with h1 | h1
      · exact (hfresh r hr).1 (by simpa using h1)
      · exact (hfresh r hr).2.1 (by simpa using h1)
  · refine ⟨rowToToken (tokenToRow
      { t with created_at := (if t.created_at = "" then now else t.created_at),
               updated_at := now }), ?_, ?_, ?_⟩
    · unfold get_token findRow
      rw [find?_append_none (List.find?_eq_none.mpr fun r hr => by
        simp only [Bool.or_eq_true, decide_eq_true_eq]
        rintro (h1 | h1)
        · exact (hfresh r hr).2.2 h1
        · exact (hfresh r hr).2.1 h1)]
      rw [List.find?_cons_of_pos _ (by simp [tokenToRow])]
      rfl
    · show pySplitComma (joinCommaList t.aliases) = t.aliases
      exact split_join_shapely t.aliases hal
    · show pySplitComma (joinCommaList t.tags) = t.tags
      exact split_join_shapely t.tags htg

/-- C10 witness. -/
theorem c10_roundtrip_witness :
    ∃ tok s2,
      add_token { mkColorToken "color/w10" "#fff" with
          aliases := ["one", "two"], tags := ["x"] } "t1" ⟨[], []⟩ = (.ok tok, s2)
      ∧ ∃ t2, get_token "color/w10" s2 = some t2
        ∧ t2.aliases = ["one", "two"] ∧ t2.tags = ["x"] :=
  c10_roundtrip
    { mkColorToken "color/w10" "#fff" with aliases := ["one", "two"], tags := ["x"] }
    "t1" ⟨[], []⟩ (by decide) (by intro r hr; cases hr) (by decide) (by decide)


theorem dep_code (b : Bool) : (decide ((if b then (1 : Int) else 0) ≠ 0)) = b := by
  cases b <;> decide

/-- C2 counterexample: updating an existing token with a supplied
`category` field changes the stored category from `color` to
`spacing` — category is mutable through the update path, contrary to
the claim. -/
theorem c2_counterexample :
    exVarState.tokens.map Row.category = ["color"]
    ∧ ((update_token "x" { category := some "spacing" } "t1" exVarState).2.tokens.map
        Row.category) = ["spacing"] := by
  decide

/-- C2 (corrected): a successful update applies exactly the supplied
field changes among value, description, aliases, deprecated,
deprecated_reason, tags and category (category is mutable through this
path, contrary to the original claim); the stored name, id and
created_at cannot be changed, fields not supplied keep their previous
values apart from version (incremented by one) and updated_at (set to
the current time), and all other rows and the snapshot table are left
untouched. -/
theorem c2_update_fields (s : DBState) (key now : String) (f : Fields)
    (row : Row) (tok : Token) (s2 : DBState)
    (hrow : findRow s key = some row)
    (hid : f.id = none) (hca : f.created_at = none) (hua : f.updated_at = none)
    (hver : f.version = none)
    (hal : ∀ xs, f.aliases = some xs → shapelyList xs = true)
    (htg : ∀ xs, f.tags = some xs → shapelyList xs = true)
    (hok : update_token key f now s = (.ok tok, s2)) :
    s2.snaps = s.snaps
    ∧ s2.tokens.length = s.tokens.length
    ∧ (∀ r ∈ s.tokens, r.id ≠ row.id → r ∈ s2.tokens)
    ∧ ∃ r2 ∈ s2.tokens, r2.id = row.id ∧
        rowToToken r2 = { rowToToken row with
          category := f.category.getD (rowToToken row).category,
          value := f.value.getD (rowToToken row).value,
          description := f.description.getD (rowToToken row).description,
          aliases := f.aliases.getD (rowToToken row).aliases,
          deprecated := f.deprecated.getD (rowToToken row).deprecated,
          deprecated_reason := f.deprecated_reason.getD (rowToToken row).deprecated_reason,
          tags := f.tags.getD (rowToToken row).tags,
          updated_at := now,
          version := (rowToToken row).version + 1 } := by
  unfold update_token at hok
  rw [hrow] at hok
  dsimp only at hok
  by_cases hv : (patchedToken row f now).validate ≠ []
  · rw [if_pos hv] at hok
    exact absurd (congrArg Prod.fst hok) (by simp)
  · rw [if_neg hv] at hok
    have hpid : (patchedToken row f now).id = row.id := by
      simp [patchedToken, applyFields, rowToToken, hid]
    have hs2 : s2 = { s with tokens := s.tokens.map fun r =>
        if r.id = (patchedToken row f now).id
        then (updateRowWith (patchedToken row f now) r) else r } :=
      (congrArg Prod.snd hok).symm
    subst hs2
    refine ⟨rfl, by simp, ?_, ?_⟩
    · intro r hr hne
      refine List.mem_map.mpr ⟨r, hr, ?_⟩
      rw [if_neg (by rw [hpid]; exact hne)]
    · refine ⟨updateRowWith (patchedToken row f now) row, ?_, rfl, ?_⟩
      · refine List.mem_map.mpr ⟨row, List.mem_of_find?_eq_some hrow, ?_⟩
        rw [if_pos (by rw [hpid])]
      · simp only [rowToToken, updateRowWith, patchedToken, applyFields,
          hid, hca, hua, hver, Option.getD_none, Token.mk.injEq]
        refine ⟨trivial, trivial, trivial, trivial, trivial, ?_, ?_, trivial,
          ?_, trivial, trivial, trivial⟩
        · rcases hA : f.aliases with _ | xs
          · simp only [Option.getD_none]
            rw [join_split]
          · simp only [Option.getD_some]
            exact split_join_shapely xs (hal xs hA)
        · rw [dep_code]
        · rcases hT : f.tags with _ | xs
          · simp only [Option.getD_none]
            rw [join_split]
          · simp only [Option.getD_some]
            exact split_join_shapely xs (htg xs hT)


/-- C2 witness. -/
theorem c2_update_fields_witness :
    ((update_token "x" exPatch "t1" exVarState).2.snaps = (exVarState : DBState).snaps)
    ∧ ((update_token "x" exPatch "t1" exVarState).2.tokens.length
        = (exVarState : DBState).tokens.length)
    ∧ (∀ r ∈ (exVarState : DBState).tokens, r.id ≠ exRow.id →
        r ∈ (update_token "x" exPatch "t1" exVarState).2.tokens)
    ∧ ∃ r2 ∈ (update_token "x" exPatch "t1" exVarState).2.tokens, r2.id = exRow.id ∧
        rowToToken r2 = { rowToToken exRow with
          category := exPatch.category.getD (rowToToken exRow).category,
          value := exPatch.value.getD (rowToToken exRow).value,
          description := exPatch.description.getD (rowToToken exRow).description,
          aliases := exPatch.aliases.getD (rowToToken exRow).aliases,
          deprecated := exPatch.deprecated.getD (rowToToken exRow).deprecated,
          deprecated_reason := exPatch.deprecated_reason.getD (rowToToken exRow).deprecated_reason,
          tags := exPatch.tags.getD (rowToToken exRow).tags,
          updated_at := "t1",
          version := (rowToToken exRow).version + 1 } :=
  c2_update_fields exVarState "x" "t1" exPatch exRow
    (patchedToken exRow exPatch "t1")
    (update_token "x" exPatch "t1" exVarState).2
    rfl rfl rfl rfl rfl
    (fun _ h => Option.noConfusion h) (fun _ h => Option.noConfusion h) rfl


/-- C4 witness. -/
theorem c4_update_all_or_nothing_witness :
    update_token "x" { value := some "nope" } "t1" exVarState =
      (.error (strCat ["Validation failed: ",
          joinSemi (patchedToken exRow { value := some "nope" } "t1").validate]),
        exVarState) :=
  c4_update_all_or_nothing exVarState "x" "t1" { value := some "nope" } exRow
    rfl (by decide)

theorem containsSub_append_left (sub l2 : List Char)
    (h : containsSubL sub l2 = true) :
    ∀ l1 : List Char, containsSubL sub (l1 ++ l2) = true := by
  intro l1
  induction l1 with
  | nil => simpa using h
  | cons c rest ih =>
    rw [List.cons_append, containsSubL, ih]
    simp

theorem dupMsg_contains (n : String) :
    containsSubstr (dupMsg n) "already exists" = true := by
  show containsSubL "already exists".data
    ("Token with name \x27".data ++ (n.data ++ ("\x27 already exists".data ++ []))) = true
  apply containsSub_append_left
  apply containsSub_append_left
  decide

theorem importToken_validate_irrel (n v c d : String) (tg : List String)
    (tid now : String) :
    (importEntryToken n v c d tg tid now).validate
      = (importEntryToken n v c d tg "" "").validate := rfl

theorem add_token_dup (t : Token) (now : String) (s : DBState)
    (hval : t.validate = []) (hname : t.name ∈ s.tokens.map Row.name) :
    add_token t now s = (.error (dupMsg t.name), s) := by
  unfold add_token
  rw [if_neg (by simp [hval])]
  rw [if_pos ?hc]
  case hc =>
    rcases List.mem_map.mp hname with ⟨r, hr, hrn⟩
    exact List.any_eq_true.mpr ⟨r, hr, by simp [hrn]⟩


/-- C8 counterexample: an import entry whose value is the string
`already exists` fails validation and is not a duplicate (the store is
empty), yet the batch reports it as skipped with no error message,
because the importer classifies failures by searching the exception
text for the substring `already exists`. -/
theorem c8_counterexample :
    (importEntryToken "x" "already exists" "color" "" [] "id1" "t").validate ≠ []
    ∧ (⟨[], []⟩ : DBState).tokens = []
    ∧ (import_json [("x", .record "already exists" "color" "" [])] ["id1"] "t"
        ⟨[], []⟩).1 = (0, 1, []) := by
  decide

theorem importLoop_counts (now : String) :
    ∀ (entries : List (String × ImportVal)) (ids : List String) (s : DBState),
      (importLoop now entries ids s).1.1 + (importLoop now entries ids s).1.2.1
        + (importLoop now entries ids s).1.2.2.length = recordCount entries := by
  intro entries
  induction entries with
  | nil => intro ids s; rfl
  | cons e rest ih =>
    intro ids s
    rcases e with ⟨n, val⟩
    cases val with
    | nonRecord =>
      rw [show recordCount ((n, ImportVal.nonRecord) :: rest) = recordCount rest from by
        simp [recordCount]]
      rw [importLoop]
      exact ih ids s
    | record v c d tg =>
      rw [show recordCount ((n, ImportVal.record v c d tg) :: rest)
          = recordCount rest + 1 from by simp [recordCount]]
      rw [importLoop]
      rcases hadd : add_token (importEntryToken n v c d tg (ids.headD "") now) now s
        with ⟨res, s2⟩
      cases res with
      | ok tk =>
        dsimp only
        have := ih ids.tail s2
        omega
      | error e =>
        dsimp only
        by_cases hc : containsSubstr e "already exists" = true
        · rw [if_pos hc]
          dsimp only
          have := ih ids.tail s2
          omega
        · rw [if_neg hc]
          dsimp only
          have := ih ids.tail s2
          simp only [List.length_cons]
          omega

theorem importLoop_dup (now : String) :
    ∀ (entries : List (String × ImportVal)) (ids : List String) (s : DBState),
      (∀ n v c d tg, (n, ImportVal.record v c d tg) ∈ entries →
        (importEntryToken n v c d tg "" "").validate = []
          ∧ n ∈ s.tokens.map Row.name) →
      (importLoop now entries ids s) = ((0, recordCount entries, []), s) := by
  intro entries
  induction entries with
  | nil => intro ids s _; rfl
  | cons e rest ih =>
    intro ids s hall
    rcases e with ⟨n, val⟩
    cases val with
    | nonRecord =>
      rw [show recordCount ((n, ImportVal.nonRecord) :: rest) = recordCount rest from by
        simp [recordCount]]
      rw [importLoop]
      exact ih ids s fun n' v' c' d' tg' hm =>
        hall n' v' c' d' tg' (List.mem_cons_of_mem _ hm)
    | record v c d tg =>
      have hthis := hall n v c d tg (List.mem_cons_self _ _)
      have hval : (importEntryToken n v c d tg (ids.headD "") now).validate = [] := by
        rw [importToken_validate_irrel]
        exact hthis.1
      have hdup := add_token_dup (importEntryToken n v c d tg (ids.headD "") now)
        now s hval hthis.2
      have ihr := ih ids.tail s fun n' v' c' d' tg' hm =>
        hall n' v' c' d' tg' (List.mem_cons_of_mem _ hm)
      rw [show recordCount ((n, ImportVal.record v c d tg) :: rest)
          = recordCount rest + 1 from by simp [recordCount]]
      rw [importLoop, hdup]
      dsimp only
      rw [if_pos (dupMsg_contains _), ihr]

/-- C8 (corrected): the batch importer attempts every record-shaped
entry independently and never aborts — added plus skipped plus the
number of collected error messages always equals the number of
record-shaped entries; a failure whose message contains the substring
`already exists` (every duplicate-name failure has this form)
increments the skipped count, any other failure appends its message;
and re-importing entries that are all valid and already present by
name returns zero added, every record skipped, no errors, and leaves
the store unchanged. -/
theorem c8_import_batch :
    (∀ (entries : List (String × ImportVal)) (ids : List String) (now : String)
        (s : DBState),
      (import_json entries ids now s).1.1 + (import_json entries ids now s).1.2.1
        + (import_json entries ids now s).1.2.2.length = recordCount entries)
    ∧ (∀ (entries : List (String × ImportVal)) (ids : List String) (now : String)
        (s : DBState),
      (∀ n v c d tg, (n, ImportVal.record v c d tg) ∈ entries →
        (importEntryToken n v c d tg "" "").validate = []
          ∧ n ∈ s.tokens.map Row.name) →
      (import_json entries ids now s).1 = (0, recordCount entries, [])
        ∧ (import_json entries ids now s).2 = s) :=
  ⟨fun entries ids now s => importLoop_counts now entries ids s,
   fun entries ids now s hall => by
    have h := importLoop_dup now entries ids s hall
    exact ⟨congrArg Prod.fst h, congrArg Prod.snd h⟩⟩


/-- C6 witness. -/
theorem c6_diff_changed_witness :
    ((("x", changeRec (mkColorToken "x" "#111111") (mkColorToken "x" "#999999")) ∈
        (diffMaps [("x", mkColorToken "x" "#111111")]
          [("x", mkColorToken "x" "#999999")]).changed)
      ↔ tokensDiffer (mkColorToken "x" "#111111") (mkColorToken "x" "#999999") = true)
    ∧ ∀ rec : ChangeRec,
        ("x", rec) ∈ (diffMaps [("x", mkColorToken "x" "#111111")]
          [("x", mkColorToken "x" "#999999")]).changed →
        rec = changeRec (mkColorToken "x" "#111111") (mkColorToken "x" "#999999") :=
  c6_diff_changed [("x", mkColorToken "x" "#111111")]
    [("x", mkColorToken "x" "#999999")] (by decide) "x"
    (mkColorToken "x" "#111111") (mkColorToken "x" "#999999") (by decide) (by decide)

/-- C8 witness. -/
theorem c8_import_batch_witness :
    (import_json [("a", ImportVal.record "#ffffff" "color" "" [])] ["u1"] "t"
        ⟨[tokenToRow (mkColorToken "a" "#111111")], []⟩).1
      = (0, recordCount [("a", ImportVal.record "#ffffff" "color" "" [])], [])
    ∧ (import_json [("a", ImportVal.record "#ffffff" "color" "" [])] ["u1"] "t"
        ⟨[tokenToRow (mkColorToken "a" "#111111")], []⟩).2
      = ⟨[tokenToRow (mkColorToken "a" "#111111")], []⟩ :=
  c8_import_batch.2 [("a", ImportVal.record "#ffffff" "color" "" [])] ["u1"] "t"
    ⟨[tokenToRow (mkColorToken "a" "#111111")], []⟩ (by
      intro n v c d tg h
      have heq := List.mem_singleton.mp h
      have h1 : n = "a" := congrArg Prod.fst heq
      have h2 : ImportVal.record v c d tg = ImportVal.record "#ffffff" "color" "" [] :=
        congrArg Prod.snd heq
      injection h2 with hv hc hd htg
      subst h1 hv hc hd htg
      exact ⟨by decide, by decide⟩)

end DTM
